import Mathlib

set_option maxHeartbeats 1000000
set_option maxRecDepth 10000

/-!
Shallow embedding of the weather NFT mint pipeline of this repository:
the metadata builder and token URI encoder and the manual ABI call encoder
from the weather generator component, and the sub account service
(connect, ensure sub account, send calls) from the base account service.
Strings are modelled as lists of Unicode scalar values (Nat); bytes as Nat
below 256; the RPC transport is modelled by explicit response data and a
log of issued requests.
-/

namespace WeatherMint

/-- Unicode scalar values of a Lean string: the model of a JS string value.
Lean chars are exactly the valid scalar values, so strings built from Lean
string literals are automatically surrogate free. -/
def jstr (s : String) : List Nat := s.data.map Char.toNat

/-- A valid Unicode scalar value: below 0x110000 and not a surrogate. -/
def validCp (c : Nat) : Prop := c < 1114112 ∧ ¬ (55296 ≤ c ∧ c ≤ 57343)

/-- All code points of the list are valid scalar values. -/
def validStr (s : List Nat) : Prop := ∀ c ∈ s, validCp c

/-! ### UTF-8 -/

/-- UTF-8 bytes of one code point (standard 1 to 4 byte encoding). -/
def utf8EncodeChar (c : Nat) : List Nat :=
  if c < 128 then [c]
  else if c < 2048 then [192 + c / 64, 128 + c % 64]
  else if c < 65536 then [224 + c / 4096, 128 + c / 64 % 64, 128 + c % 64]
  else [240 + c / 262144, 128 + c / 4096 % 64, 128 + c / 64 % 64, 128 + c % 64]

/-- UTF-8 bytes of a code point list. -/
def utf8Encode (s : List Nat) : List Nat := s.flatMap utf8EncodeChar

/-- UTF-8 decoder over byte lists (lenient about overlong forms, which the
encoder never produces); fails on malformed lead or continuation bytes. -/
def decodeUtf8 : List Nat → Option (List Nat)
  | [] => some []
  | b1 :: rest =>
    if b1 < 128 then (decodeUtf8 rest).map (b1 :: ·)
    else if b1 < 192 then none
    else
      match rest with
      | [] => none
      | b2 :: rest2 =>
        if b1 < 224 then
          if 128 ≤ b2 ∧ b2 < 192 then
            (decodeUtf8 rest2).map (((b1 - 192) * 64 + (b2 - 128)) :: ·)
          else none
        else
          match rest2 with
          | [] => none
          | b3 :: rest3 =>
            if b1 < 240 then
              if (128 ≤ b2 ∧ b2 < 192) ∧ (128 ≤ b3 ∧ b3 < 192) then
                (decodeUtf8 rest3).map
                  ((((b1 - 224) * 64 + (b2 - 128)) * 64 + (b3 - 128)) :: ·)
              else none
            else
              match rest3 with
              | [] => none
              | b4 :: rest4 =>
                if b1 < 248 then
                  if (128 ≤ b2 ∧ b2 < 192) ∧ (128 ≤ b3 ∧ b3 < 192) ∧
                      (128 ≤ b4 ∧ b4 < 192) then
                    (decodeUtf8 rest4).map
                      (((((b1 - 240) * 64 + (b2 - 128)) * 64 + (b3 - 128)) * 64
                        + (b4 - 128)) :: ·)
                  else none
                else none

/-! ### Percent encoding, as in encodeURIComponent plus the regex replace -/

/-- Characters encodeURIComponent leaves unescaped: ASCII alphanumerics and
minus, underscore, dot, bang, tilde, star, quote, parens. -/
def isUnreserved (c : Nat) : Bool :=
  decide ((48 ≤ c ∧ c ≤ 57) ∨ (65 ≤ c ∧ c ≤ 90) ∨ (97 ≤ c ∧ c ≤ 122) ∨
    c = 45 ∨ c = 95 ∨ c = 46 ∨ c = 33 ∨ c = 126 ∨ c = 42 ∨ c = 39 ∨ c = 40 ∨ c = 41)

/-- Uppercase hex digit character for a value below 16. -/
def hexUpperDigit (n : Nat) : Nat := if n < 10 then 48 + n else 55 + n

/-- Percent triplet of one byte, uppercase hex as encodeURIComponent emits. -/
def pctByte (b : Nat) : List Nat := [37, hexUpperDigit (b / 16), hexUpperDigit (b % 16)]

/-- Model of encodeURIComponent on a scalar value list: unreserved characters
kept, every other code point replaced by the percent triplets of its UTF-8
bytes. -/
def encodeURIComponentM (s : List Nat) : List Nat :=
  s.flatMap (fun c => if isUnreserved c then [c] else (utf8EncodeChar c).flatMap pctByte)

/-- Uppercase hex digit test, as the regex class 0-9 A-F. -/
def isHexUpper (c : Nat) : Bool := decide ((48 ≤ c ∧ c ≤ 57) ∨ (65 ≤ c ∧ c ≤ 70))

/-- Value of an uppercase hex digit character. -/
def hexUpperVal (c : Nat) : Nat := if c < 58 then c - 48 else c - 55

/-- Model of the regex replace of every percent triplet by the raw byte:
leftmost match first, scanning resumes after each replacement, characters
that do not start a match are copied. -/
def percentDecode : List Nat → List Nat
  | [] => []
  | c :: rest =>
    if c = 37 then
      match rest with
      | a :: b :: rest2 =>
        if isHexUpper a ∧ isHexUpper b then
          (hexUpperVal a * 16 + hexUpperVal b) :: percentDecode rest2
        else c :: percentDecode (a :: b :: rest2)
      | [a] => [c, a]
      | [] => [c]
    else c :: percentDecode rest

/-! ### Base64, as btoa and the inverse decoding -/

/-- Standard base64 alphabet character for a sextet. -/
def b64Char (n : Nat) : Nat :=
  if n < 26 then 65 + n
  else if n < 52 then 97 + (n - 26)
  else if n < 62 then 48 + (n - 52)
  else if n = 62 then 43 else 47

/-- Sextet value of a base64 alphabet character. -/
def b64Val (c : Nat) : Nat :=
  if 65 ≤ c ∧ c ≤ 90 then c - 65
  else if 97 ≤ c ∧ c ≤ 122 then c - 97 + 26
  else if 48 ≤ c ∧ c ≤ 57 then c - 48 + 52
  else if c = 43 then 62 else 63

/-- Model of btoa on a byte list: base64 characters with padding. -/
def btoaM : List Nat → List Nat
  | [] => []
  | [b1] => [b64Char (b1 / 4), b64Char (b1 % 4 * 16), 61, 61]
  | [b1, b2] => [b64Char (b1 / 4), b64Char (b1 % 4 * 16 + b2 / 16), b64Char (b2 % 16 * 4), 61]
  | b1 :: b2 :: b3 :: rest =>
    b64Char (b1 / 4) :: b64Char (b1 % 4 * 16 + b2 / 16) ::
      b64Char (b2 % 16 * 4 + b3 / 64) :: b64Char (b3 % 64) :: btoaM rest

/-- Model of atob: base64 decoding back to the byte list, failing on inputs
whose length is not a multiple of four. -/
def atobM : List Nat → Option (List Nat)
  | [] => some []
  | c1 :: c2 :: c3 :: c4 :: rest =>
    if c3 = 61 ∧ c4 = 61 ∧ rest = [] then some [b64Val c1 * 4 + b64Val c2 / 16]
    else if c4 = 61 ∧ rest = [] then
      some [b64Val c1 * 4 + b64Val c2 / 16, b64Val c2 % 16 * 16 + b64Val c3 / 4]
    else
      (atobM rest).map (fun bs =>
        (b64Val c1 * 4 + b64Val c2 / 16) :: (b64Val c2 % 16 * 16 + b64Val c3 / 4) ::
          (b64Val c3 % 4 * 64 + b64Val c4) :: bs)
  | _ => none

/-! ### JSON values, stringify and parse

The metadata object only ever holds strings, arrays and objects, so the
embedded JSON fragment covers exactly those. Stringify follows
JSON.stringify with insertion ordered keys and no whitespace; the parser
accepts that grammar and requires full consumption. -/

/-- JSON values occurring in the NFT metadata: strings, arrays and objects
with insertion ordered keys. -/
inductive Json where
  | str : List Nat → Json
  | arr : List Json → Json
  | obj : List (List Nat × Json) → Json

/-- Lowercase hex digit character for a value below 16. -/
def hexLowerDigit (n : Nat) : Nat := if n < 10 then 48 + n else 87 + n

/-- Escape of one character inside a JSON string literal, as JSON.stringify:
quote and backslash and the five short escapes, a u escape for the other
control characters, everything else kept raw. -/
def jsonEscapeChar (c : Nat) : List Nat :=
  if c = 34 then [92, 34]
  else if c = 92 then [92, 92]
  else if c = 8 then [92, 98]
  else if c = 9 then [92, 116]
  else if c = 10 then [92, 110]
  else if c = 12 then [92, 102]
  else if c = 13 then [92, 114]
  else if c < 32 then [92, 117, 48, 48, hexLowerDigit (c / 16), hexLowerDigit (c % 16)]
  else [c]

/-- Escaped body of a JSON string literal. -/
def escBody (s : List Nat) : List Nat := s.flatMap jsonEscapeChar

/-- JSON string literal with the surrounding quotes. -/
def strLit (s : List Nat) : List Nat := 34 :: escBody s ++ [34]

mutual

/-- JSON.stringify on the embedded value type: no whitespace, insertion
ordered keys. -/
def jsonStringify : Json → List Nat
  | .str s => strLit s
  | .arr xs => 91 :: elemsStr xs ++ [93]
  | .obj kvs => 123 :: membersStr kvs ++ [125]

/-- Comma separated serialization of array elements. -/
def elemsStr : List Json → List Nat
  | [] => []
  | [x] => jsonStringify x
  | x :: xs => jsonStringify x ++ 44 :: elemsStr xs

/-- Comma separated serialization of object members. -/
def membersStr : List (List Nat × Json) → List Nat
  | [] => []
  | [(k, v)] => strLit k ++ 58 :: jsonStringify v
  | (k, v) :: kvs => strLit k ++ 58 :: jsonStringify v ++ 44 :: membersStr kvs

end

/-- Hex digit test accepting both cases, as the JSON u escape. -/
def isHexDigit (c : Nat) : Bool :=
  decide ((48 ≤ c ∧ c ≤ 57) ∨ (65 ≤ c ∧ c ≤ 70) ∨ (97 ≤ c ∧ c ≤ 102))

/-- Value of a hex digit character of either case. -/
def hexDigitVal (c : Nat) : Nat :=
  if c < 58 then c - 48 else if c < 91 then c - 55 else c - 87

/-- Single character JSON escapes. -/
def unescapeChar : Nat → Option Nat
  | 34 => some 34
  | 92 => some 92
  | 47 => some 47
  | 98 => some 8
  | 102 => some 12
  | 110 => some 10
  | 114 => some 13
  | 116 => some 9
  | _ => none

/-- Parse the body of a JSON string literal after the opening quote;
returns the decoded characters and the input after the closing quote. -/
def parseStrBody : List Nat → Option (List Nat × List Nat)
  | [] => none
  | c :: rest =>
    if c = 34 then some ([], rest)
    else if c = 92 then
      match rest with
      | [] => none
      | e :: rest2 =>
        if e = 117 then
          match rest2 with
          | h1 :: h2 :: h3 :: h4 :: rest3 =>
            if isHexDigit h1 ∧ isHexDigit h2 ∧ isHexDigit h3 ∧ isHexDigit h4 then
              (parseStrBody rest3).map (fun p =>
                ((((hexDigitVal h1 * 16 + hexDigitVal h2) * 16 + hexDigitVal h3) * 16
                  + hexDigitVal h4) :: p.1, p.2))
            else none
          | _ => none
        else
          match unescapeChar e with
          | some d => (parseStrBody rest2).map (fun p => (d :: p.1, p.2))
          | none => none
    else if 32 ≤ c then (parseStrBody rest).map (fun p => (c :: p.1, p.2))
    else none

mutual

/-- Fuel indexed JSON value parser for the stringify grammar. -/
def parseVal : Nat → List Nat → Option (Json × List Nat)
  | 0, _ => none
  | f + 1, input =>
    match input with
    | 34 :: rest =>
      match parseStrBody rest with
      | some (s, r) => some (.str s, r)
      | none => none
    | 91 :: rest =>
      match rest with
      | [] => none
      | r :: r2 =>
        if r = 93 then some (.arr [], r2)
        else
          match parseElems f (r :: r2) with
          | some (xs, r3) => some (.arr xs, r3)
          | none => none
    | 123 :: rest =>
      match rest with
      | [] => none
      | r :: r2 =>
        if r = 125 then some (.obj [], r2)
        else
          match parseMembers f (r :: r2) with
          | some (kvs, r3) => some (.obj kvs, r3)
          | none => none
    | _ => none

/-- Fuel indexed parser for one or more comma separated array elements up to
the closing bracket. -/
def parseElems : Nat → List Nat → Option (List Json × List Nat)
  | 0, _ => none
  | f + 1, input =>
    match parseVal f input with
    | none => none
    | some (v, rest) =>
      match rest with
      | [] => none
      | r :: r2 =>
        if r = 44 then
          match parseElems f r2 with
          | some (vs, r3) => some (v :: vs, r3)
          | none => none
        else if r = 93 then some ([v], r2)
        else none

/-- Fuel indexed parser for one or more comma separated object members up to
the closing brace. -/
def parseMembers : Nat → List Nat → Option (List (List Nat × Json) × List Nat)
  | 0, _ => none
  | f + 1, input =>
    match input with
    | 34 :: rest =>
      match parseStrBody rest with
      | none => none
      | some (k, r1) =>
        match r1 with
        | [] => none
        | r :: r2 =>
          if r = 58 then
            match parseVal f r2 with
            | none => none
            | some (v, r3) =>
              match r3 with
              | [] => none
              | q :: r4 =>
                if q = 44 then
                  match parseMembers f r4 with
                  | some (kvs, r5) => some ((k, v) :: kvs, r5)
                  | none => none
                else if q = 125 then some ([(k, v)], r4)
                else none
          else none
    | _ => none

end

/-- JSON.parse model: run the value parser with fuel the input length and
require full consumption. -/
def jsonParse (input : List Nat) : Option Json :=
  match parseVal input.length input with
  | some (j, rest) => if rest = [] then some j else none
  | none => none

/-! ### Metadata builder and token URI encoder, from getWeather -/

/-- One entry of the weather array of the OpenWeatherMap response. -/
structure WCond where
  description : String
deriving DecidableEq

/-- The parts of the weather response getWeather reads: name, the weather
array and the rendered current temperature. The numeric temperature is
modelled by its decimal rendering, which is how the source consumes it
inside template literals. -/
structure WeatherResp where
  name : String
  weather : List WCond
  mainTemp : String
deriving DecidableEq

/-- One NFT attribute: trait type and value, both strings. -/
structure NftAttr where
  trait_type : String
  value : String
deriving DecidableEq

/-- The NFT metadata record getWeather constructs. -/
structure Metadata where
  name : String
  description : String
  attributes : List NftAttr
deriving DecidableEq

/-- Metadata construction from getWeather, with the wall clock rendering
passed in as now. The source reads the first weather entry; the model uses
the head with a default that no theorem relies on, since the source throws
on an empty weather array. -/
def buildMetadata (w : WeatherResp) (now : String) : Metadata :=
  { name := "Weather in " ++ w.name
    description := "Forecast for " ++ w.name ++ ": "
      ++ (w.weather.headD ⟨""⟩).description ++ ", " ++ w.mainTemp ++ "°C"
    attributes :=
      [ ⟨"City", w.name⟩
      , ⟨"Temperature", w.mainTemp ++ "°C"⟩
      , ⟨"Condition", (w.weather.headD ⟨""⟩).description⟩
      , ⟨"Date", now⟩ ] }

/-- The metadata record as a JSON value, with the key order of the source
object literal. -/
def metaJson (m : Metadata) : Json :=
  .obj
    [ (jstr "name", .str (jstr m.name))
    , (jstr "description", .str (jstr m.description))
    , (jstr "attributes", .arr (m.attributes.map fun a =>
        .obj [ (jstr "trait_type", .str (jstr a.trait_type))
             , (jstr "value", .str (jstr a.value)) ])) ]

/-- The fixed data URI scheme the source prepends. -/
def uriScheme : List Nat := jstr "data:application/json;base64,"

/-- Token URI construction from getWeather: stringify the metadata,
percent encode, reconstitute the raw UTF-8 bytes via the regex replace,
base64 encode, and prepend the scheme. -/
def makeTokenURI (m : Metadata) : List Nat :=
  uriScheme ++ btoaM (percentDecode (encodeURIComponentM (jsonStringify (metaJson m))))

/-- The decoding side of the round trip contract: strip the scheme, base64
decode the payload, decode the UTF-8 bytes and JSON parse the text. -/
def decodeTokenURI (uri : List Nat) : Option Json :=
  (atobM (uri.drop uriScheme.length)).bind fun bytes =>
    (decodeUtf8 bytes).bind fun cps => jsonParse cps

/-! ### Manual ABI encoding of mintNFT, from encodeMintCall -/

/-- Fuel indexed digit accumulator for the minimal hex rendering; the fuel
never runs out when it starts at the number itself. -/
def hexAuxGo : Nat → Nat → List Nat
  | _, 0 => []
  | 0, _ + 1 => []
  | fuel + 1, n + 1 =>
    hexAuxGo fuel ((n + 1) / 16) ++ [hexLowerDigit ((n + 1) % 16)]

/-- Minimal lowercase hex digits of a positive number, empty for zero. -/
def hexAux (n : Nat) : List Nat := hexAuxGo n n

/-- Model of Number.toString with radix 16 on a natural number: minimal
lowercase hex, the single digit zero for zero. -/
def toHexMin (n : Nat) : List Nat := if n = 0 then [48] else hexAux n

/-- Model of String.padStart: left pad with the fill character up to the
target length, longer inputs unchanged. -/
def padStartL (target fill : Nat) (l : List Nat) : List Nat :=
  List.replicate (target - l.length) fill ++ l

/-- First UTF-16 code unit of a code point, as charCodeAt 0 on a single
code point string: the code point itself below 0x10000, otherwise the high
surrogate. -/
def cu0 (c : Nat) : Nat := if c < 65536 then c else 55296 + (c - 65536) / 1024

/-- Hex chunk the source emits for one character of the token URI: the
first code unit in minimal lowercase hex, left padded to two digits. -/
def charCodeHex (c : Nat) : List Nat := padStartL 2 48 (toHexMin (cu0 c))

/-- The tokenURIHex accumulator of encodeMintCall. -/
def tokenURIHex (uri : List Nat) : List Nat := uri.flatMap charCodeHex

/-- Model of String.replace with the literal pattern 0x: drops the first
occurrence of the two character sequence, leaves the rest unchanged. -/
def replaceFirst0x : List Nat → List Nat
  | 48 :: 120 :: rest => rest
  | c :: rest => c :: replaceFirst0x rest
  | [] => []

/-- Model of String.padEnd to the next multiple of 64 with the zero digit,
as the data segment padding of encodeMintCall. -/
def padEndMult64 (l : List Nat) : List Nat :=
  l ++ List.replicate ((l.length + 63) / 64 * 64 - l.length) 48

/-- The manual ABI encoder for mintNFT, from encodeMintCall: selector,
left padded address, fixed offset, length word and padded data. The length
computation divides the hex character count by two exactly as the source;
the model uses natural division, which agrees with the source whenever the
hex character count is even, and every theorem below stays in that case. -/
def encodeMintCall (toAddr uri : List Nat) : List Nat :=
  let selector := jstr "0x40c10f19"
  let toPadded := padStartL 64 48 (replaceFirst0x toAddr)
  let h := tokenURIHex uri
  let lengthHex := h.length / 2
  let lenPadded := padStartL 64 48 (toHexMin lengthHex)
  let offset := jstr "0000000000000000000000000000000000000000000000000000000000000040"
  selector ++ toPadded ++ offset ++ lenPadded ++ padEndMult64 h

/-- Big endian value of a hex digit list, as the reading of a 32 byte word. -/
def fromHexBE (l : List Nat) : Nat := l.foldl (fun acc c => acc * 16 + hexDigitVal c) 0

/-! ### The base account service, as a state machine with an explicit
request log

The EIP-1193 provider is modelled by the response data a run observes and
by a log of the requests issued, in order. Errors raised by the transport
are modelled with Except where a claim needs them. -/

/-- The mutable fields of the service: the cached universal address and the
cached sub account (its address). -/
structure SvcState where
  universalAddress : Option String
  subAccount : Option String
deriving DecidableEq

/-- One call entry of a wallet sendCalls request. -/
structure CallItem where
  toAddr : String
  data : List Nat
  value : String
deriving DecidableEq

/-- The parameter object of a wallet sendCalls request. -/
structure CallsParam where
  version : String
  atomicRequired : Bool
  fromAddr : String
  calls : List CallItem
deriving DecidableEq

/-- Requests the service issues over the provider. -/
inductive Rpc where
  | httpGet (url : String)
  | requestAccounts
  | getSubAccounts (account : Option String) (domain : String)
  | addSubAccount
  | sendCalls (p : CallsParam)
  | sendTransaction (fromAddr toAddr : String) (data : List Nat) (value : String)
deriving DecidableEq

/-- Responses the provider would give to the discovery and creation
requests of one run: the subAccounts array of wallet getSubAccounts, absent
when the field is missing, and the address wallet addSubAccount returns. -/
structure ProviderResp where
  subAccountsResp : Option (List String)
  newSubAddress : String
deriving DecidableEq

/-- Error value raised by the transport, carrying its message. -/
structure JsError where
  message : String
deriving DecidableEq

/-- Result object of a dispatch, with the two identifier fields getWeather
tries; either field may be absent. -/
structure SendObj where
  txHash : Option String
  hash : Option String
deriving DecidableEq

/-- Model of connectWallet: records the first account as the universal
address, and treats a second account as a pre provisioned sub account. -/
def connectWallet (st : SvcState) (accounts : List String) :
    List String × SvcState × List Rpc :=
  let st1 : SvcState := { st with universalAddress := accounts.head? }
  match accounts with
  | _ :: b :: _ => (accounts, { st1 with subAccount := some b }, [Rpc.requestAccounts])
  | _ => (accounts, st1, [Rpc.requestAccounts])

/-- Model of ensureSubAccount: the cached sub account short circuits;
otherwise discovery via wallet getSubAccounts, falling back to creation via
wallet addSubAccount, and the outcome is cached. Returns the sub account
address, the new state and the requests issued. -/
def ensureSubAccount (st : SvcState) (pr : ProviderResp) (origin : String) :
    String × SvcState × List Rpc :=
  match st.subAccount with
  | some s => (s, st, [])
  | none =>
    let req1 := Rpc.getSubAccounts st.universalAddress origin
    match pr.subAccountsResp with
    | some (a :: _) => (a, { st with subAccount := some a }, [req1])
    | _ =>
      (pr.newSubAddress, { st with subAccount := some pr.newSubAddress },
        [req1, Rpc.addSubAccount])

/-- Model of sendTransactionFromSub: ensure the sub account, then issue one
wallet sendCalls request with version 2.0, atomicRequired true, from the
sub account address and a single call entry. The dispatch outcome of the
transport is passed in; a raised error propagates to the caller with the
request already issued. -/
def sendTransactionFromSub (st : SvcState) (pr : ProviderResp)
    (origin toAddr : String) (data : List Nat) (value : String)
    (dispatch : Except JsError (Option SendObj)) :
    Except JsError (Option SendObj) × SvcState × List Rpc :=
  let ens := ensureSubAccount st pr origin
  let p : CallsParam := ⟨"2.0", true, ens.1, [⟨toAddr, data, value⟩]⟩
  (dispatch, ens.2.1, ens.2.2 ++ [Rpc.sendCalls p])

/-- sendTransactionFromSub with the value parameter left to its default,
which the source declares as the hex string 0x0. -/
def sendTransactionFromSubDefault (st : SvcState) (pr : ProviderResp)
    (origin toAddr : String) (data : List Nat)
    (dispatch : Except JsError (Option SendObj)) :
    Except JsError (Option SendObj) × SvcState × List Rpc :=
  sendTransactionFromSub st pr origin toAddr data "0x0" dispatch

/-- Model of sendTxViaEthRpc: ensure the sub account, then issue one
eth sendTransaction request from it. -/
def sendTxViaEthRpc (st : SvcState) (pr : ProviderResp)
    (origin toAddr : String) (data : List Nat) (value : String) :
    SvcState × List Rpc :=
  let ens := ensureSubAccount st pr origin
  (ens.2.1, ens.2.2 ++ [Rpc.sendTransaction ens.1 toAddr data value])

/-- Model of getSubAccountAddress: ensure the sub account and return its
address. -/
def getSubAccountAddress (st : SvcState) (pr : ProviderResp) (origin : String) :
    String × SvcState × List Rpc :=
  let ens := ensureSubAccount st pr origin
  (ens.1, ens.2.1, ens.2.2)

/-! ### The mint orchestrator, from getWeather -/

/-- Truthiness of a JS string valued expression: absent and empty are
falsy. -/
def jsTruthy : Option String → Bool
  | none => false
  | some s => decide (s ≠ "")

/-- The JS logical or on string valued expressions. -/
def jsOr (a b : Option String) : Option String := if jsTruthy a then a else b

/-- The transaction identifier extraction of getWeather: optional chaining
on txHash, then on hash, then null. -/
def extractTxHash (result : Option SendObj) : Option String :=
  jsOr (jsOr (result.bind (·.txHash)) (result.bind (·.hash))) none

/-- The ECMAScript whitespace and line terminator code points that
String.prototype.trim removes. -/
def isJsSpace (c : Nat) : Bool :=
  decide (c = 9 ∨ c = 10 ∨ c = 11 ∨ c = 12 ∨ c = 13 ∨ c = 32 ∨ c = 160 ∨ c = 65279 ∨
    c = 5760 ∨ (8192 ≤ c ∧ c ≤ 8202) ∨ c = 8232 ∨ c = 8233 ∨ c = 8239 ∨ c = 8287 ∨
    c = 12288)

/-- Whitespace test on a character. -/
def isJsSpaceChar (c : Char) : Bool := isJsSpace c.toNat

/-- Model of String.prototype.trim as used on the city input: drop leading
and trailing whitespace. -/
def jsTrim (s : String) : String :=
  String.mk (((s.data.dropWhile isJsSpaceChar).reverse.dropWhile isJsSpaceChar).reverse)

/-- The query city computation of getWeather: the trimmed input, or the
default Washington when that is falsy. -/
def cityQuery (city : String) : String :=
  let t := jsTrim city
  if t = "" then "Washington" else t

/-- The OpenWeatherMap request URL getWeather builds. -/
def weatherUrl (cityName apiKey : String) : String :=
  "https://api.openweathermap.org/data/2.5/weather?q=" ++ cityName
    ++ "&appid=" ++ apiKey ++ "&units=metric"

/-- The contract address constant of the component. -/
def contractAddress : String := "0xb4F800E5647f9B82Be98068cb98c516f871bb7B8"

/-- External data one getWeather run observes: the api key and origin, the
wall clock rendering, the weather response and the provider behaviour. -/
structure MintEnv where
  apiKey : String
  origin : String
  now : String
  weatherResp : Except JsError WeatherResp
  providerResp : ProviderResp
  dispatchResp : Except JsError (Option SendObj)

/-- The component fields getWeather leaves behind: the weather object, the
transaction hash, the error message and the loading flag. -/
structure MintOutcome where
  weather : Option WeatherResp
  txHash : Option String
  error : Option String
  loading : Bool
deriving DecidableEq

/-- Model of getWeather: fetch the weather, build the metadata and token
URI, resolve the sub account, encode the mint call, dispatch it from the
sub account and extract the identifier. Any raised error is caught: the
message is recorded and the remaining steps are skipped. The err0 argument
is the error field value before the run, which the source never resets on
a successful attempt. -/
def getWeather (city : String) (st : SvcState) (env : MintEnv)
    (err0 : Option String) : MintOutcome × SvcState × List Rpc :=
  let url := weatherUrl (cityQuery city) env.apiKey
  match env.weatherResp with
  | .error e => (⟨none, none, some e.message, false⟩, st, [Rpc.httpGet url])
  | .ok w =>
    let metadata := buildMetadata w env.now
    let tokenURI := makeTokenURI metadata
    let ens := ensureSubAccount st env.providerResp env.origin
    let callData := encodeMintCall (jstr ens.1) tokenURI
    let send := sendTransactionFromSub ens.2.1 env.providerResp env.origin
      contractAddress callData "0x0" env.dispatchResp
    match send.1 with
    | .error e =>
      (⟨some w, none, some e.message, false⟩, send.2.1,
        Rpc.httpGet url :: ens.2.2 ++ send.2.2)
    | .ok r =>
      (⟨some w, extractTxHash r, err0, false⟩, send.2.1,
        Rpc.httpGet url :: ens.2.2 ++ send.2.2)

/-- Tests whether a request is the sub account creation request. -/
def isAddSub : Rpc → Bool
  | .addSubAccount => true
  | _ => false

/-- Tests whether a request is the sub account discovery request. -/
def isGetSubs : Rpc → Bool
  | .getSubAccounts _ _ => true
  | _ => false

/-- Tests whether a request is a batched call dispatch. -/
def isSendCalls : Rpc → Bool
  | .sendCalls _ => true
  | _ => false

/-! ### Concrete sample data for witnesses and counterexamples -/

/-- The contract address as a code point list. -/
def addrSample : List Nat := jstr "0xb4F800E5647f9B82Be98068cb98c516f871bb7B8"

/-- A Paris observation with an accented, non ASCII condition text. -/
def wParis : WeatherResp := ⟨"Paris", [⟨"ciel dégagé"⟩], "18.5"⟩

/-- A Paris observation with the ASCII condition of the spec scenario. -/
def wParisClear : WeatherResp := ⟨"Paris", [⟨"clear sky"⟩], "18.5"⟩

/-- A service state with a cached sub account. -/
def stCached : SvcState := ⟨some "0xUNI", some "0xSUB"⟩

/-- Provider responses for a run that would have to create a sub account. -/
def prCreate : ProviderResp := ⟨some [], "0xNEW"⟩

/-- An environment whose dispatch raises an error. -/
def envFail : MintEnv :=
  ⟨"key", "https://localhost", "now", .ok wParisClear, prCreate, .error ⟨"boom"⟩⟩

/-! ## Theorems

Helper lemmas first, then one theorem per claim with its witness or
counterexample. -/

/-- With a cached sub account, ensureSubAccount returns it and changes
nothing. -/
theorem ensure_cached (st : SvcState) (pr : ProviderResp) (o a : String)
    (h : st.subAccount = some a) : ensureSubAccount st pr o = (a, st, []) := by
  unfold ensureSubAccount
  rw [h]

/-- ensureSubAccount always leaves the returned address cached. -/
theorem ensure_caches (st : SvcState) (pr : ProviderResp) (o : String) :
    (ensureSubAccount st pr o).2.1.subAccount = some (ensureSubAccount st pr o).1 := by
  unfold ensureSubAccount
  cases h : st.subAccount with
  | some s => simp [h]
  | none =>
    cases hp : pr.subAccountsResp with
    | none => simp
    | some l => cases l <;> simp

/-- ensureSubAccount issues at most one discovery and at most one creation
request, and no dispatch request. -/
theorem ensure_log_counts (st : SvcState) (pr : ProviderResp) (o : String) :
    ((ensureSubAccount st pr o).2.2).countP isGetSubs ≤ 1 ∧
    ((ensureSubAccount st pr o).2.2).countP isAddSub ≤ 1 ∧
    ((ensureSubAccount st pr o).2.2).countP isSendCalls = 0 := by
  unfold ensureSubAccount
  cases h : st.subAccount with
  | some s => simp
  | none =>
    cases hp : pr.subAccountsResp with
    | none => simp [List.countP_cons, isGetSubs, isAddSub, isSendCalls]
    | some l =>
      cases l <;> simp [List.countP_cons, isGetSubs, isAddSub, isSendCalls]

/-- C5: ensureSubAccount is idempotent: a second call with no intervening
disconnect returns the same address, leaves the state unchanged, issues no
further request, and over both calls the discovery and the creation
requests happen at most once. -/
theorem C5_ensure_idempotent (st : SvcState) (pr pr2 : ProviderResp) (o o2 : String) :
    (ensureSubAccount (ensureSubAccount st pr o).2.1 pr2 o2).1 =
      (ensureSubAccount st pr o).1 ∧
    (ensureSubAccount (ensureSubAccount st pr o).2.1 pr2 o2).2.1 =
      (ensureSubAccount st pr o).2.1 ∧
    (ensureSubAccount (ensureSubAccount st pr o).2.1 pr2 o2).2.2 = [] ∧
    ((ensureSubAccount st pr o).2.2 ++
        (ensureSubAccount (ensureSubAccount st pr o).2.1 pr2 o2).2.2).countP isGetSubs ≤ 1 ∧
    ((ensureSubAccount st pr o).2.2 ++
        (ensureSubAccount (ensureSubAccount st pr o).2.1 pr2 o2).2.2).countP isAddSub ≤ 1 := by
  have hc := ensure_caches st pr o
  have h2 := ensure_cached (ensureSubAccount st pr o).2.1 pr2 o2 (ensureSubAccount st pr o).1 hc
  have hl := ensure_log_counts st pr o
  refine ⟨by rw [h2], by rw [h2], by rw [h2], ?_, ?_⟩
  · rw [h2]
    simpa using hl.1
  · rw [h2]
    simpa using hl.2.1

/-- C4 (amended): dispatch from the sub account first resolves the sub
account via ensureSubAccount, then issues exactly one wallet sendCalls
request, atomic, from the resolved sub account address, whose calls array
is the single call with the given target and data and the default value,
which the source sets to the hex string 0x0. -/
theorem C4_dispatch_request (st : SvcState) (pr : ProviderResp) (o t : String)
    (d : List Nat) (disp : Except JsError (Option SendObj)) :
    (sendTransactionFromSubDefault st pr o t d disp).2.2 =
      (ensureSubAccount st pr o).2.2 ++
        [Rpc.sendCalls ⟨"2.0", true, (ensureSubAccount st pr o).1, [⟨t, d, "0x0"⟩]⟩] ∧
    ((sendTransactionFromSubDefault st pr o t d disp).2.2).countP isSendCalls = 1 ∧
    (sendTransactionFromSubDefault st pr o t d disp).2.1 =
      (ensureSubAccount st pr o).2.1 ∧
    (sendTransactionFromSubDefault st pr o t d disp).2.1.subAccount =
      some (ensureSubAccount st pr o).1 := by
  refine ⟨rfl, ?_, rfl, ensure_caches st pr o⟩
  have hl := (ensure_log_counts st pr o).2.2
  show ((ensureSubAccount st pr o).2.2 ++ [_]).countP isSendCalls = 1
  rw [List.countP_append, hl]
  rfl

/-- C4 counterexample: on a cached sub account state the issued batched
call carries the value 0x0, not the value 0 the claim states. -/
theorem C4_counterexample :
    (sendTransactionFromSubDefault stCached prCreate "https://localhost"
        "0xCONTRACT" [0, 1] (.ok none)).2.2 =
      [Rpc.sendCalls ⟨"2.0", true, "0xSUB", [⟨"0xCONTRACT", [0, 1], "0x0"⟩]⟩] ∧
    ("0x0" : String) ≠ "0" := by
  exact ⟨rfl, by decide⟩

/-- C9: once a sub account is cached, ensureSubAccount,
sendTransactionFromSub, getSubAccountAddress and sendTxViaEthRpc all leave
it unchanged; connectWallet is the one operation that overwrites it, which
it does whenever the transport returns two or more accounts. -/
theorem C9_cache_stable (st : SvcState) (a : String) (pr pr2 pr3 pr4 : ProviderResp)
    (o o2 o3 o4 t t2 : String) (d d2 : List Nat) (v v2 : String)
    (disp : Except JsError (Option SendObj)) (h : st.subAccount = some a) :
    (ensureSubAccount st pr o).2.1.subAccount = some a ∧
    (sendTransactionFromSub st pr2 o2 t d v disp).2.1.subAccount = some a ∧
    (getSubAccountAddress st pr3 o3).2.1.subAccount = some a ∧
    (sendTxViaEthRpc st pr4 o4 t2 d2 v2).1.subAccount = some a ∧
    (∀ u b rest, (connectWallet st (u :: b :: rest)).2.1.subAccount = some b) := by
  have e1 := ensure_cached st pr o a h
  have e2 := ensure_cached st pr2 o2 a h
  have e3 := ensure_cached st pr3 o3 a h
  have e4 := ensure_cached st pr4 o4 a h
  refine ⟨by rw [e1]; exact h, ?_, ?_, ?_, ?_⟩
  · show (ensureSubAccount st pr2 o2).2.1.subAccount = some a
    rw [e2]; exact h
  · show (ensureSubAccount st pr3 o3).2.1.subAccount = some a
    rw [e3]; exact h
  · show (ensureSubAccount st pr4 o4).2.1.subAccount = some a
    rw [e4]; exact h
  · intro u b rest
    rfl

/-- C9 witness: a concrete cached state, preserved by every non connect
operation and overwritten by connectWallet. -/
theorem C9_witness :
    (ensureSubAccount stCached prCreate "https://localhost").2.1.subAccount = some "0xSUB" ∧
    (sendTransactionFromSub stCached prCreate "https://localhost" "0xC" [2] "0x0"
        (.ok none)).2.1.subAccount = some "0xSUB" ∧
    (getSubAccountAddress stCached prCreate "https://localhost").2.1.subAccount = some "0xSUB" ∧
    (sendTxViaEthRpc stCached prCreate "https://localhost" "0xC" [2] "0x0").1.subAccount =
      some "0xSUB" ∧
    (∀ u b rest, (connectWallet stCached (u :: b :: rest)).2.1.subAccount = some b) :=
  C9_cache_stable stCached "0xSUB" prCreate prCreate prCreate prCreate
    "https://localhost" "https://localhost" "https://localhost" "https://localhost"
    "0xC" "0xC" [2] [2] "0x0" "0x0" (.ok none) rfl

/-- C10: transaction identifier extraction is total and ordered: the txHash
field wins when truthy, else the hash field when truthy, else the outcome
is null, including on an absent result object. -/
theorem C10_extract_ordered :
    extractTxHash none = none ∧
    (∀ r : SendObj, jsTruthy r.txHash = true → extractTxHash (some r) = r.txHash) ∧
    (∀ r : SendObj, jsTruthy r.txHash = false → jsTruthy r.hash = true →
      extractTxHash (some r) = r.hash) ∧
    (∀ r : SendObj, jsTruthy r.txHash = false → jsTruthy r.hash = false →
      extractTxHash (some r) = none) := by
  refine ⟨rfl, ?_, ?_, ?_⟩
  · intro r h
    simp [extractTxHash, jsOr, h]
  · intro r h1 h2
    simp [extractTxHash, jsOr, h1, h2]
  · intro r h1 h2
    simp [extractTxHash, jsOr, h1, h2]

/-- C10 witness: an absent txHash field with an empty string hash field
falls through both and yields null. -/
theorem C10_witness : extractTxHash (some ⟨none, some ""⟩) = none :=
  C10_extract_ordered.2.2.2 ⟨none, some ""⟩ (by decide) (by decide)

/-- C6: every built metadata record has exactly four attributes, in the
order City, Temperature, Condition, Date; the Paris scenario yields the
name, description and attributes of the spec, with the wall clock
rendering as the Date value. -/
theorem C6_metadata_shape (w : WeatherResp) (now : String) (c : WCond)
    (rest : List WCond) (h : w.weather = c :: rest) :
    (buildMetadata w now).attributes =
      [⟨"City", w.name⟩, ⟨"Temperature", w.mainTemp ++ "°C"⟩,
       ⟨"Condition", c.description⟩, ⟨"Date", now⟩] ∧
    (buildMetadata w now).attributes.length = 4 ∧
    (buildMetadata w now).attributes.map NftAttr.trait_type =
      ["City", "Temperature", "Condition", "Date"] ∧
    buildMetadata ⟨"Paris", [⟨"clear sky"⟩], "18.5"⟩ now =
      ⟨"Weather in Paris", "Forecast for Paris: clear sky, 18.5°C",
       [⟨"City", "Paris"⟩, ⟨"Temperature", "18.5°C"⟩,
        ⟨"Condition", "clear sky"⟩, ⟨"Date", now⟩]⟩ := by
  refine ⟨?_, ?_, ?_, rfl⟩ <;> simp [buildMetadata, h]

/-- C6 witness: the Paris observation of the spec scenario. -/
theorem C6_witness :
    (buildMetadata wParisClear "now").attributes =
      [⟨"City", wParisClear.name⟩, ⟨"Temperature", wParisClear.mainTemp ++ "°C"⟩,
       ⟨"Condition", (⟨"clear sky"⟩ : WCond).description⟩, ⟨"Date", "now"⟩] ∧
    (buildMetadata wParisClear "now").attributes.length = 4 ∧
    (buildMetadata wParisClear "now").attributes.map NftAttr.trait_type =
      ["City", "Temperature", "Condition", "Date"] ∧
    buildMetadata ⟨"Paris", [⟨"clear sky"⟩], "18.5"⟩ "now" =
      ⟨"Weather in Paris", "Forecast for Paris: clear sky, 18.5°C",
       [⟨"City", "Paris"⟩, ⟨"Temperature", "18.5°C"⟩,
        ⟨"Condition", "clear sky"⟩, ⟨"Date", "now"⟩]⟩ :=
  C6_metadata_shape wParisClear "now" ⟨"clear sky"⟩ [] rfl

/-- C8: the empty city input defaults to Washington as the query key of
the weather fetch of getWeather. -/
theorem C8_default_city (st : SvcState) (env : MintEnv) (err0 : Option String) :
    (getWeather "" st env err0).2.2.head? =
      some (Rpc.httpGet (weatherUrl "Washington" env.apiKey)) := by
  have hc : cityQuery "" = "Washington" := rfl
  unfold getWeather
  rw [hc]
  cases env.weatherResp with
  | error e => rfl
  | ok w => cases hd : env.dispatchResp <;> simp [sendTransactionFromSub, hd]

/-- C7: when the dispatch raises, getWeather ends with txHash null and the
error message recorded, the service state is exactly the state after the
sub account resolution that preceded the dispatch, at most one creation
request ever happened, and a sub account cached before the run is still
cached unchanged with no creation request at all. -/
theorem C7_dispatch_failure (city : String) (st : SvcState) (env : MintEnv)
    (err0 : Option String) (w : WeatherResp) (e : JsError)
    (hw : env.weatherResp = .ok w) (hd : env.dispatchResp = .error e) :
    (getWeather city st env err0).1.txHash = none ∧
    (getWeather city st env err0).1.error = some e.message ∧
    (getWeather city st env err0).2.1 =
      (ensureSubAccount st env.providerResp env.origin).2.1 ∧
    ((getWeather city st env err0).2.2).countP isAddSub ≤ 1 ∧
    (∀ a, st.subAccount = some a →
      (getWeather city st env err0).2.1.subAccount = some a ∧
      ((getWeather city st env err0).2.2).countP isAddSub = 0) := by
  have hcache := ensure_caches st env.providerResp env.origin
  have hsecond := ensure_cached (ensureSubAccount st env.providerResp env.origin).2.1
    env.providerResp env.origin (ensureSubAccount st env.providerResp env.origin).1 hcache
  have hcounts := ensure_log_counts st env.providerResp env.origin
  have hrun : getWeather city st env err0 =
      (⟨some w, none, some e.message, false⟩,
        (ensureSubAccount st env.providerResp env.origin).2.1,
        Rpc.httpGet (weatherUrl (cityQuery city) env.apiKey) ::
          (ensureSubAccount st env.providerResp env.origin).2.2 ++
          [Rpc.sendCalls
            ⟨"2.0", true, (ensureSubAccount st env.providerResp env.origin).1,
             [⟨contractAddress,
               encodeMintCall (jstr (ensureSubAccount st env.providerResp env.origin).1)
                 (makeTokenURI (buildMetadata w env.now)), "0x0"⟩]⟩]) := by
    simp only [getWeather, sendTransactionFromSub, hw, hsecond, hd, List.nil_append]
  rw [hrun]
  refine ⟨rfl, rfl, rfl, ?_, ?_⟩
  · simp only [List.countP_cons, List.countP_append, isAddSub, List.countP_nil]
    simpa using hcounts.2.1
  · intro a ha
    have hfirst := ensure_cached st env.providerResp env.origin a ha
    rw [hfirst]
    simp [List.countP_cons, isAddSub, ha]

/-- C7 witness: a concrete run whose dispatch raises with message boom. -/
theorem C7_witness :
    (getWeather "Paris" stCached envFail none).1.txHash = none ∧
    (getWeather "Paris" stCached envFail none).1.error =
      some (JsError.mk "boom").message ∧
    (getWeather "Paris" stCached envFail none).2.1 =
      (ensureSubAccount stCached envFail.providerResp envFail.origin).2.1 ∧
    ((getWeather "Paris" stCached envFail none).2.2).countP isAddSub ≤ 1 ∧
    (∀ a, stCached.subAccount = some a →
      (getWeather "Paris" stCached envFail none).2.1.subAccount = some a ∧
      ((getWeather "Paris" stCached envFail none).2.2).countP isAddSub = 0) :=
  C7_dispatch_failure "Paris" stCached envFail none wParisClear ⟨"boom"⟩ rfl rfl

/-- The digit accumulator ignores surplus fuel. -/
theorem hexAuxGo_fuel : ∀ (n f1 f2 : Nat), n ≤ f1 → n ≤ f2 →
    hexAuxGo f1 n = hexAuxGo f2 n := by
  intro n
  induction n using Nat.strong_induction_on with
  | _ n ih =>
    intro f1 f2 h1 h2
    match n, f1, f2 with
    | 0, f1, f2 => cases f1 <;> cases f2 <;> rfl
    | m + 1, a + 1, b + 1 =>
      show hexAuxGo a ((m + 1) / 16) ++ _ = hexAuxGo b ((m + 1) / 16) ++ _
      have hlt : (m + 1) / 16 < m + 1 := Nat.div_lt_self (by omega) (by omega)
      rw [ih ((m + 1) / 16) hlt a b (by omega) (by omega)]

/-- The defining recurrence of hexAux for positive numbers. -/
theorem hexAux_eq (n : Nat) (h : n ≠ 0) :
    hexAux n = hexAux (n / 16) ++ [hexLowerDigit (n % 16)] := by
  match n, h with
  | m + 1, _ =>
    show hexAuxGo m ((m + 1) / 16) ++ _ = hexAuxGo ((m + 1) / 16) ((m + 1) / 16) ++ _
    have hlt : (m + 1) / 16 < m + 1 := Nat.div_lt_self (by omega) (by omega)
    rw [hexAuxGo_fuel ((m + 1) / 16) m ((m + 1) / 16) (by omega) (by omega)]

/-- The lowercase digits of hexAux decode to their value. -/
theorem hexDigitVal_hexLowerDigit : ∀ d, d < 16 → hexDigitVal (hexLowerDigit d) = d := by
  decide

/-- Folding the big endian reading over the digits of hexAux recovers the
number. -/
theorem foldl_hexAux (n : Nat) : ∀ acc,
    List.foldl (fun acc c => acc * 16 + hexDigitVal c) acc (hexAux n) =
      acc * 16 ^ (hexAux n).length + n := by
  induction n using Nat.strong_induction_on with
  | _ n ih =>
    intro acc
    by_cases h : n = 0
    · subst h
      rw [show hexAux 0 = [] from rfl]
      simp
    · rw [hexAux_eq n h]
      rw [List.foldl_append]
      have hdiv : n / 16 < n := Nat.div_lt_self (Nat.pos_of_ne_zero h) (by omega)
      rw [ih (n / 16) hdiv acc]
      have hm : n % 16 < 16 := Nat.mod_lt _ (by omega)
      have hd := hexDigitVal_hexLowerDigit (n % 16) hm
      simp only [List.foldl_cons, List.foldl_nil, hd, List.length_append,
        List.length_cons, List.length_nil, Nat.zero_add]
      have h2 : n / 16 * 16 + n % 16 = n := by omega
      calc (acc * 16 ^ (hexAux (n / 16)).length + n / 16) * 16 + n % 16
          = acc * (16 ^ (hexAux (n / 16)).length * 16) + (n / 16 * 16 + n % 16) := by ring
        _ = acc * 16 ^ ((hexAux (n / 16)).length + 1) + n := by rw [h2, pow_succ]

/-- hexAux of a number below a power of 16 has at most that many digits. -/
theorem hexAux_length_le : ∀ (k n : Nat), n < 16 ^ k → (hexAux n).length ≤ k := by
  intro k
  induction k with
  | zero =>
    intro n h
    have : n = 0 := by simpa using Nat.lt_one_iff.mp (by simpa using h)
    subst this
    rfl
  | succ k ih =>
    intro n h
    by_cases h0 : n = 0
    · subst h0
      rw [show hexAux 0 = [] from rfl]
      simp
    · rw [hexAux_eq n h0]
      simp only [List.length_append, List.length_cons, List.length_nil]
      have : n / 16 < 16 ^ k := by
        rw [Nat.div_lt_iff_lt_mul (by omega)]
        calc n < 16 ^ (k + 1) := h
          _ = 16 ^ k * 16 := by rw [pow_succ]
      have := ih (n / 16) this
      omega

/-- toHexMin of a number below a power of 16 has at most that many digits,
for a positive digit budget. -/
theorem toHexMin_length_le (n k : Nat) (h : n < 16 ^ k) (hk : 0 < k) :
    (toHexMin n).length ≤ k := by
  unfold toHexMin
  by_cases h0 : n = 0
  · simp [h0]
    omega
  · simp only [h0, if_false]
    exact hexAux_length_le k n h

/-- padStartL reaches exactly the target length when the input is not
longer. -/
theorem padStartL_length (t f : Nat) (l : List Nat) (h : l.length ≤ t) :
    (padStartL t f l).length = t := by
  simp [padStartL]
  omega

/-- The big endian reading ignores leading zero digit characters. -/
theorem fromHexBE_padStart (t : Nat) (l : List Nat) :
    fromHexBE (padStartL t 48 l) = fromHexBE l := by
  unfold fromHexBE padStartL
  rw [List.foldl_append]
  have : ∀ k, List.foldl (fun acc c => acc * 16 + hexDigitVal c) 0
      (List.replicate k 48) = 0 := by
    intro k
    induction k with
    | zero => rfl
    | succ k ih => simpa [List.replicate_succ] using ih
  rw [this]

/-- The big endian reading of toHexMin recovers the number. -/
theorem fromHexBE_toHexMin (n : Nat) : fromHexBE (toHexMin n) = n := by
  unfold toHexMin
  by_cases h0 : n = 0
  · simp [h0, fromHexBE, hexDigitVal]
  · simp only [h0, if_false]
    unfold fromHexBE
    rw [foldl_hexAux n 0]
    ring

/-- Extraction of the 64 character segment at offset 138. -/
theorem extract_mid (A B C : List Nat) (hA : A.length = 138) (hB : B.length = 64) :
    ((A ++ (B ++ C)).drop 138).take 64 = B := by
  have h1 : (A ++ (B ++ C)).drop 138 = B ++ C := by
    rw [← hA]
    exact List.drop_left A (B ++ C)
  rw [h1, ← hB]
  exact List.take_left B C

/-- UTF-8 of an ASCII code point is that single byte. -/
theorem utf8EncodeChar_ascii (c : Nat) (h : c < 128) : utf8EncodeChar c = [c] := by
  simp [utf8EncodeChar, h]

/-- UTF-8 byte length of an ASCII list is its length. -/
theorem utf8Encode_ascii_length (uri : List Nat) (h : ∀ c ∈ uri, c < 128) :
    (utf8Encode uri).length = uri.length := by
  induction uri with
  | nil => rfl
  | cons c rest ih =>
    have hc : c < 128 := h c (List.mem_cons_self c rest)
    have hr : ∀ x ∈ rest, x < 128 := fun x hx => h x (List.mem_cons_of_mem c hx)
    simp [utf8Encode, utf8EncodeChar_ascii c hc] at ih ⊢
    exact ih hr

/-- The hex chunk of a code point below 256 has exactly two characters. -/
theorem charCodeHex_length (c : Nat) (h : c < 256) : (charCodeHex c).length = 2 := by
  unfold charCodeHex
  have hcu : cu0 c = c := by
    unfold cu0
    have hc : c < 65536 := by omega
    simp [hc]
  rw [hcu]
  exact padStartL_length 2 48 _ (toHexMin_length_le c 2 (by omega) (by omega))

/-- On an ASCII token URI the hex accumulator has two characters per
character. -/
theorem tokenURIHex_ascii_length (uri : List Nat) (h : ∀ c ∈ uri, c < 128) :
    (tokenURIHex uri).length = 2 * uri.length := by
  induction uri with
  | nil => rfl
  | cons c rest ih =>
    have hc : c < 128 := h c (List.mem_cons_self c rest)
    have hr : ∀ x ∈ rest, x < 128 := fun x hx => h x (List.mem_cons_of_mem c hx)
    simp only [tokenURIHex, List.flatMap_cons, List.length_append, List.length_cons]
    rw [charCodeHex_length c (by omega)]
    have := ih hr
    simp only [tokenURIHex] at this
    rw [this]
    ring

/-- The shape of the encoder output on an ASCII token URI whose length word
fits the 64 hex characters. -/
theorem encodeMintCall_shape (toAddr uri : List Nat)
    (hascii : ∀ c ∈ uri, c < 128) :
    encodeMintCall toAddr uri =
      ((jstr "0x40c10f19" ++ padStartL 64 48 (replaceFirst0x toAddr)) ++
        jstr "0000000000000000000000000000000000000000000000000000000000000040") ++
      (padStartL 64 48 (toHexMin uri.length) ++ padEndMult64 (tokenURIHex uri)) := by
  have hhex := tokenURIHex_ascii_length uri hascii
  have hn : (tokenURIHex uri).length / 2 = uri.length := by omega
  simp only [encodeMintCall, hn, List.append_assoc]

/-- C2 (amended): for every address of at most 32 hex bytes and every
ASCII token URI of at most 10 KB, which covers every token URI the URI
encoder produces, the fourth 32 byte word of the encoder output read as a
big endian integer is the UTF-8 byte length of the token URI. -/
theorem C2_length_word (toAddr uri : List Nat)
    (hto : (replaceFirst0x toAddr).length ≤ 64)
    (hascii : ∀ c ∈ uri, c < 128) (hlen : uri.length ≤ 10240) :
    fromHexBE (((encodeMintCall toAddr uri).drop 138).take 64) =
      (utf8Encode uri).length := by
  have hbig : uri.length < 16 ^ 64 := lt_of_le_of_lt hlen (by norm_num)
  have hlenw : (toHexMin uri.length).length ≤ 64 :=
    toHexMin_length_le uri.length 64 hbig (by omega)
  have hL : (padStartL 64 48 (toHexMin uri.length)).length = 64 :=
    padStartL_length _ _ _ hlenw
  have hA : ((jstr "0x40c10f19" ++ padStartL 64 48 (replaceFirst0x toAddr)) ++
      jstr "0000000000000000000000000000000000000000000000000000000000000040").length
        = 138 := by
    have h1 : (jstr "0x40c10f19").length = 10 := rfl
    have h2 : (jstr
      "0000000000000000000000000000000000000000000000000000000000000040").length = 64 := rfl
    simp [List.length_append, h1, h2, padStartL_length _ _ _ hto]
  rw [encodeMintCall_shape toAddr uri hascii, extract_mid _ _ _ hA hL,
    fromHexBE_padStart, fromHexBE_toHexMin, utf8Encode_ascii_length uri hascii]

/-- C2 witness: the real contract address and a small ASCII token URI. -/
theorem C2_witness :
    fromHexBE (((encodeMintCall addrSample (jstr "data:x")).drop 138).take 64) =
      (utf8Encode (jstr "data:x")).length :=
  C2_length_word addrSample (jstr "data:x") (by decide) (by decide) (by decide)

/-- C2 counterexample: on the one character token URI with the e acute
code point the length word reads 1 while the UTF-8 byte length is 2, so
the claim fails for token URI strings with non ASCII characters. -/
theorem C2_counterexample :
    fromHexBE (((encodeMintCall addrSample [233]).drop 138).take 64) = 1 ∧
    (utf8Encode [233]).length = 2 ∧ (1 : Nat) ≠ 2 := by
  refine ⟨by decide, by decide, by decide⟩

/-- C3 (amended): for every address of at most 32 hex bytes and every
ASCII token URI below the 64 digit capacity of the length word, the
encoder output after the 0x prefix has 8 + 64 + 64 + 64 plus the padded
data hex characters, the data segment being ceil of n over 32 times 32
bytes for n the UTF-8 byte length of the token URI. -/
theorem C3_output_length (toAddr uri : List Nat)
    (hto : (replaceFirst0x toAddr).length ≤ 64)
    (hascii : ∀ c ∈ uri, c < 128) (hbig : uri.length < 16 ^ 64) :
    ((encodeMintCall toAddr uri).drop 2).length =
      8 + 64 + 64 + 64 + ((utf8Encode uri).length + 31) / 32 * 64 := by
  have hhex := tokenURIHex_ascii_length uri hascii
  have hlenw : (toHexMin uri.length).length ≤ 64 :=
    toHexMin_length_le uri.length 64 hbig (by omega)
  have hL : (padStartL 64 48 (toHexMin uri.length)).length = 64 :=
    padStartL_length _ _ _ hlenw
  have hdata : (padEndMult64 (tokenURIHex uri)).length =
      (2 * uri.length + 63) / 64 * 64 := by
    unfold padEndMult64
    simp only [List.length_append, List.length_replicate, hhex]
    omega
  rw [encodeMintCall_shape toAddr uri hascii]
  simp only [List.length_drop, List.length_append, hL, hdata,
    padStartL_length _ _ _ hto, utf8Encode_ascii_length uri hascii]
  have h1 : (jstr "0x40c10f19").length = 10 := rfl
  have h2 : (jstr
    "0000000000000000000000000000000000000000000000000000000000000040").length = 64 := rfl
  rw [h1, h2]
  omega

/-- C3 witness: the real contract address and a small ASCII token URI. -/
theorem C3_witness :
    ((encodeMintCall addrSample (jstr "data:x")).drop 2).length =
      8 + 64 + 64 + 64 + ((utf8Encode (jstr "data:x")).length + 31) / 32 * 64 :=
  C3_output_length addrSample (jstr "data:x") (by decide) (by decide) (by decide)

/-- C3 counterexample: on the token URI of 33 e acute code points the
output after the 0x prefix has 328 hex characters while the formula of the
claim gives 392, so the claim fails for non ASCII token URIs. -/
theorem C3_counterexample :
    ((encodeMintCall addrSample (List.replicate 33 233)).drop 2).length = 328 ∧
    8 + 64 + 64 + 64 + (((utf8Encode (List.replicate 33 233)).length + 31) / 32 * 64)
      = 392 ∧ (328 : Nat) ≠ 392 := by
  refine ⟨by decide, by decide, by decide⟩

/-- All code point lists obtained from Lean strings are valid, since Lean
characters are exactly the Unicode scalar values. -/
theorem jstr_valid (s : String) : validStr (jstr s) := by
  intro c hc
  simp only [jstr, List.mem_map] at hc
  obtain ⟨ch, _, rfl⟩ := hc
  have hv : Nat.isValidChar ch.toNat := ch.valid
  unfold Nat.isValidChar at hv
  unfold validCp
  rcases hv with h | h <;> constructor <;> omega

/-- Every byte of the UTF-8 encoding of a code point is below 256. -/
theorem utf8EncodeChar_lt (c : Nat) (h : c < 1114112) :
    ∀ b ∈ utf8EncodeChar c, b < 256 := by
  intro b hb
  unfold utf8EncodeChar at hb
  by_cases h1 : c < 128
  · rw [if_pos h1] at hb
    simp only [List.mem_cons, List.not_mem_nil, or_false] at hb
    omega
  · rw [if_neg h1] at hb
    by_cases h2 : c < 2048
    · rw [if_pos h2] at hb
      simp only [List.mem_cons, List.not_mem_nil, or_false] at hb
      rcases hb with hb | hb <;> omega
    · rw [if_neg h2] at hb
      by_cases h3 : c < 65536
      · rw [if_pos h3] at hb
        simp only [List.mem_cons, List.not_mem_nil, or_false] at hb
        rcases hb with hb | hb | hb <;> omega
      · rw [if_neg h3] at hb
        simp only [List.mem_cons, List.not_mem_nil, or_false] at hb
        rcases hb with hb | hb | hb | hb <;> omega

/-- Decoding after the byte block of one code point peels exactly that
code point. -/
theorem decodeUtf8_encodeChar (c : Nat) (h : c < 1114112) (rest : List Nat) :
    decodeUtf8 (utf8EncodeChar c ++ rest) = (decodeUtf8 rest).map (c :: ·) := by
  unfold utf8EncodeChar
  by_cases h1 : c < 128
  · rw [if_pos h1]
    show decodeUtf8 (c :: rest) = _
    conv_lhs => unfold decodeUtf8
    rw [if_pos h1]
  · rw [if_neg h1]
    by_cases h2 : c < 2048
    · rw [if_pos h2]
      show decodeUtf8 ((192 + c / 64) :: (128 + c % 64) :: rest) = _
      conv_lhs => unfold decodeUtf8
      rw [if_neg (by omega), if_neg (by omega)]
      simp only [if_pos (show (192 : Nat) + c / 64 < 224 by omega),
        if_pos (show 128 ≤ 128 + c % 64 ∧ 128 + c % 64 < 192 by omega),
        show (192 + c / 64 - 192) * 64 + (128 + c % 64 - 128) = c by omega]
    · rw [if_neg h2]
      by_cases h3 : c < 65536
      · rw [if_pos h3]
        show decodeUtf8
          ((224 + c / 4096) :: (128 + c / 64 % 64) :: (128 + c % 64) :: rest) = _
        conv_lhs => unfold decodeUtf8
        rw [if_neg (by omega), if_neg (by omega)]
        simp only [if_neg (show ¬ (224 + c / 4096 < 224) by omega),
          if_pos (show (224 : Nat) + c / 4096 < 240 by omega),
          if_pos (show (128 ≤ 128 + c / 64 % 64 ∧ 128 + c / 64 % 64 < 192) ∧
            (128 ≤ 128 + c % 64 ∧ 128 + c % 64 < 192) by omega),
          show ((224 + c / 4096 - 224) * 64 + (128 + c / 64 % 64 - 128)) * 64
            + (128 + c % 64 - 128) = c by omega]
      · rw [if_neg h3]
        show decodeUtf8 ((240 + c / 262144) :: (128 + c / 4096 % 64) ::
          (128 + c / 64 % 64) :: (128 + c % 64) :: rest) = _
        conv_lhs => unfold decodeUtf8
        rw [if_neg (by omega), if_neg (by omega)]
        simp only [if_neg (show ¬ (240 + c / 262144 < 224) by omega),
          if_neg (show ¬ (240 + c / 262144 < 240) by omega),
          if_pos (show (240 : Nat) + c / 262144 < 248 by omega),
          if_pos (show (128 ≤ 128 + c / 4096 % 64 ∧ 128 + c / 4096 % 64 < 192) ∧
            (128 ≤ 128 + c / 64 % 64 ∧ 128 + c / 64 % 64 < 192) ∧
            (128 ≤ 128 + c % 64 ∧ 128 + c % 64 < 192) by omega),
          show (((240 + c / 262144 - 240) * 64 + (128 + c / 4096 % 64 - 128)) * 64
            + (128 + c / 64 % 64 - 128)) * 64 + (128 + c % 64 - 128) = c by omega]

/-- UTF-8 decoding inverts UTF-8 encoding on bounded code point lists. -/
theorem decodeUtf8_encode (s : List Nat) (h : ∀ c ∈ s, c < 1114112) :
    decodeUtf8 (utf8Encode s) = some s := by
  induction s with
  | nil => rfl
  | cons c rest ih =>
    have hc : c < 1114112 := h c (List.mem_cons_self _ _)
    have hr : ∀ x ∈ rest, x < 1114112 := fun x hx => h x (List.mem_cons_of_mem _ hx)
    simp only [utf8Encode, List.flatMap_cons]
    rw [decodeUtf8_encodeChar c hc (rest.flatMap utf8EncodeChar)]
    have := ih hr
    simp only [utf8Encode] at this
    rw [this]
    rfl

/-- The uppercase digits of pctByte pass the regex class and decode to
their value. -/
theorem hexUpper_digit_ok : ∀ d, d < 16 →
    isHexUpper (hexUpperDigit d) = true ∧ hexUpperVal (hexUpperDigit d) = d := by
  decide

/-- A non percent character is copied by the regex replace. -/
theorem percentDecode_cons_ne (c : Nat) (l : List Nat) (hc : c ≠ 37) :
    percentDecode (c :: l) = c :: percentDecode l := by
  conv_lhs => unfold percentDecode
  rw [if_neg hc]

/-- The replace turns the percent triplet of a byte back into the byte and
resumes after it. -/
theorem percentDecode_pctByte (b : Nat) (hb : b < 256) (rest : List Nat) :
    percentDecode (pctByte b ++ rest) = b :: percentDecode rest := by
  have h1 := hexUpper_digit_ok (b / 16) (by omega)
  have h2 := hexUpper_digit_ok (b % 16) (by omega)
  show percentDecode (37 :: hexUpperDigit (b / 16) :: hexUpperDigit (b % 16) :: rest) = _
  conv_lhs => unfold percentDecode
  simp only [h1.2, h2.2, show b / 16 * 16 + b % 16 = b by omega]
  simp [h1.1, h2.1]

/-- The replace turns a block of percent triplets back into its bytes. -/
theorem percentDecode_flatMap (bytes : List Nat) (hb : ∀ b ∈ bytes, b < 256)
    (rest : List Nat) :
    percentDecode (bytes.flatMap pctByte ++ rest) = bytes ++ percentDecode rest := by
  induction bytes with
  | nil => simp
  | cons b bs ih =>
    have h1 : b < 256 := hb b (List.mem_cons_self _ _)
    have h2 : ∀ x ∈ bs, x < 256 := fun x hx => hb x (List.mem_cons_of_mem _ hx)
    simp only [List.flatMap_cons, List.append_assoc]
    rw [percentDecode_pctByte b h1 _, ih h2]
    rfl

/-- Unreserved characters are ASCII and none of them is the percent sign. -/
theorem isUnreserved_bounds (c : Nat) (h : isUnreserved c = true) :
    c < 128 ∧ c ≠ 37 := by
  simp only [isUnreserved, decide_eq_true_eq] at h
  rcases h with h | h | h | h | h | h | h | h | h | h | h | h <;> omega

/-- The regex replace of the source turns the encodeURIComponent output
back into the UTF-8 bytes of the input, for valid code point lists. -/
theorem percentDecode_encode (s : List Nat) (h : ∀ c ∈ s, c < 1114112) :
    percentDecode (encodeURIComponentM s) = utf8Encode s := by
  induction s with
  | nil => rfl
  | cons c rest ih =>
    have hc : c < 1114112 := h c (List.mem_cons_self _ _)
    have hr : ∀ x ∈ rest, x < 1114112 := fun x hx => h x (List.mem_cons_of_mem _ hx)
    have ih2 := ih hr
    simp only [encodeURIComponentM, utf8Encode, List.flatMap_cons] at ih2 ⊢
    by_cases hu : isUnreserved c
    · rw [if_pos hu]
      have hb := isUnreserved_bounds c hu
      rw [utf8EncodeChar_ascii c hb.1]
      show percentDecode (c :: _) = _
      rw [percentDecode_cons_ne c _ hb.2]
      simp only [List.append_eq, List.nil_append]
      rw [ih2]
      rfl
    · rw [if_neg hu]
      rw [percentDecode_flatMap (utf8EncodeChar c) (utf8EncodeChar_lt c hc) _, ih2]

/-- The base64 alphabet character of a sextet decodes back to it. -/
theorem b64_val_char : ∀ n, n < 64 → b64Val (b64Char n) = n := by decide

/-- No base64 alphabet character is the padding character. -/
theorem b64Char_ne_61 : ∀ n, n < 64 → b64Char n ≠ 61 := by decide

/-- The atob model inverts the btoa model on byte lists. -/
theorem atobM_btoaM (bs : List Nat) (hb : ∀ b ∈ bs, b < 256) :
    atobM (btoaM bs) = some bs := by
  induction bs using btoaM.induct with
  | case1 => rfl
  | case2 b1 =>
    have h1 : b1 < 256 := hb b1 (by simp)
    show atobM [b64Char (b1 / 4), b64Char (b1 % 4 * 16), 61, 61] = _
    conv_lhs => unfold atobM
    rw [if_pos ⟨rfl, rfl, rfl⟩,
      b64_val_char (b1 / 4) (by omega), b64_val_char (b1 % 4 * 16) (by omega),
      show b1 / 4 * 4 + b1 % 4 * 16 / 16 = b1 by omega]
  | case3 b1 b2 =>
    have h1 : b1 < 256 := hb b1 (by simp)
    have h2 : b2 < 256 := hb b2 (by simp)
    show atobM [b64Char (b1 / 4), b64Char (b1 % 4 * 16 + b2 / 16),
      b64Char (b2 % 16 * 4), 61] = _
    conv_lhs => unfold atobM
    rw [if_neg (fun hcon => b64Char_ne_61 (b2 % 16 * 4) (by omega) hcon.1),
      if_pos ⟨rfl, rfl⟩,
      b64_val_char (b1 / 4) (by omega), b64_val_char (b1 % 4 * 16 + b2 / 16) (by omega),
      b64_val_char (b2 % 16 * 4) (by omega),
      show b1 / 4 * 4 + (b1 % 4 * 16 + b2 / 16) / 16 = b1 by omega,
      show (b1 % 4 * 16 + b2 / 16) % 16 * 16 + b2 % 16 * 4 / 4 = b2 by omega]
  | case4 b1 b2 b3 rest ih =>
    have h1 : b1 < 256 := hb b1 (by simp)
    have h2 : b2 < 256 := hb b2 (by simp)
    have h3 : b3 < 256 := hb b3 (by simp)
    have hrest : ∀ x ∈ rest, x < 256 := fun x hx => hb x (by simp [hx])
    show atobM (b64Char (b1 / 4) :: b64Char (b1 % 4 * 16 + b2 / 16) ::
      b64Char (b2 % 16 * 4 + b3 / 64) :: b64Char (b3 % 64) :: btoaM rest) = _
    conv_lhs => unfold atobM
    rw [if_neg (fun hcon => b64Char_ne_61 (b2 % 16 * 4 + b3 / 64) (by omega) hcon.1),
      if_neg (fun hcon => b64Char_ne_61 (b3 % 64) (by omega) hcon.1),
      ih hrest,
      b64_val_char (b1 / 4) (by omega), b64_val_char (b1 % 4 * 16 + b2 / 16) (by omega),
      b64_val_char (b2 % 16 * 4 + b3 / 64) (by omega), b64_val_char (b3 % 64) (by omega),
      show b1 / 4 * 4 + (b1 % 4 * 16 + b2 / 16) / 16 = b1 by omega,
      show (b1 % 4 * 16 + b2 / 16) % 16 * 16 + (b2 % 16 * 4 + b3 / 64) / 4 = b2 by omega,
      show (b2 % 16 * 4 + b3 / 64) % 4 * 64 + b3 % 64 = b3 by omega]
    rfl

/-- The lowercase digits of the u escape pass the parser digit test and
decode to their value. -/
theorem hexDigit_ok : ∀ d, d < 16 →
    isHexDigit (hexLowerDigit d) = true ∧ hexDigitVal (hexLowerDigit d) = d := by
  decide

/-- String body parsing of a short escape. -/
theorem parseStrBody_escape2 (e d : Nat) (tail : List Nat) (he : e ≠ 117)
    (hu : unescapeChar e = some d) :
    parseStrBody (92 :: e :: tail) =
      (parseStrBody tail).map (fun p => (d :: p.1, p.2)) := by
  conv_lhs => unfold parseStrBody
  rw [if_neg (by omega), if_pos rfl]
  simp only [if_neg he, hu]

/-- String body parsing of a raw character. -/
theorem parseStrBody_raw (c : Nat) (tail : List Nat) (h1 : c ≠ 34) (h2 : c ≠ 92)
    (h3 : 32 ≤ c) :
    parseStrBody (c :: tail) = (parseStrBody tail).map (fun p => (c :: p.1, p.2)) := by
  conv_lhs => unfold parseStrBody
  rw [if_neg h1, if_neg h2, if_pos h3]

/-- String body parsing of a u escape of a control character. -/
theorem parseStrBody_uescape (c : Nat) (tail : List Nat) (hc : c < 32) :
    parseStrBody (92 :: 117 :: 48 :: 48 :: hexLowerDigit (c / 16) ::
      hexLowerDigit (c % 16) :: tail) =
      (parseStrBody tail).map (fun p => (c :: p.1, p.2)) := by
  have hd1 := hexDigit_ok (c / 16) (by omega)
  have hd2 := hexDigit_ok (c % 16) (by omega)
  have h48 : hexDigitVal 48 = 0 := rfl
  conv_lhs => unfold parseStrBody
  rw [if_neg (by omega), if_pos rfl]
  simp only [hd1.1, hd1.2, hd2.1, hd2.2, h48]
  simp only [show ((0 * 16 + 0) * 16 + c / 16) * 16 + c % 16 = c from by omega]
  simp [show isHexDigit 48 = true from rfl]

/-- Parsing the escaped body of a string literal up to the closing quote
recovers the string and the rest of the input. -/
theorem parseStrBody_escBody (s : List Nat) (rest : List Nat) :
    parseStrBody (escBody s ++ 34 :: rest) = some (s, rest) := by
  induction s with
  | nil =>
    show parseStrBody (34 :: rest) = _
    conv_lhs => unfold parseStrBody
    rw [if_pos rfl]
  | cons c s' ih =>
    simp only [escBody] at ih ⊢
    rw [List.flatMap_cons, List.append_assoc]
    by_cases h34 : c = 34
    · subst h34
      rw [show (jsonEscapeChar 34 : List Nat) ++ (s'.flatMap jsonEscapeChar ++ 34 :: rest) =
        92 :: 34 :: (s'.flatMap jsonEscapeChar ++ 34 :: rest) from rfl]
      rw [parseStrBody_escape2 34 34 _ (by omega) rfl, ih]
      rfl
    · by_cases h92 : c = 92
      · subst h92
        rw [show (jsonEscapeChar 92 : List Nat) ++ (s'.flatMap jsonEscapeChar ++ 34 :: rest) =
          92 :: 92 :: (s'.flatMap jsonEscapeChar ++ 34 :: rest) from rfl]
        rw [parseStrBody_escape2 92 92 _ (by omega) rfl, ih]
        rfl
      · by_cases h8 : c = 8
        · subst h8
          rw [show (jsonEscapeChar 8 : List Nat) ++ (s'.flatMap jsonEscapeChar ++ 34 :: rest) =
            92 :: 98 :: (s'.flatMap jsonEscapeChar ++ 34 :: rest) from rfl]
          rw [parseStrBody_escape2 98 8 _ (by omega) rfl, ih]
          rfl
        · by_cases h9 : c = 9
          · subst h9
            rw [show (jsonEscapeChar 9 : List Nat) ++ (s'.flatMap jsonEscapeChar ++ 34 :: rest) =
              92 :: 116 :: (s'.flatMap jsonEscapeChar ++ 34 :: rest) from rfl]
            rw [parseStrBody_escape2 116 9 _ (by omega) rfl, ih]
            rfl
          · by_cases h10 : c = 10
            · subst h10
              rw [show (jsonEscapeChar 10 : List Nat) ++ (s'.flatMap jsonEscapeChar ++ 34 :: rest) =
                92 :: 110 :: (s'.flatMap jsonEscapeChar ++ 34 :: rest) from rfl]
              rw [parseStrBody_escape2 110 10 _ (by omega) rfl, ih]
              rfl
            · by_cases h12 : c = 12
              · subst h12
                rw [show (jsonEscapeChar 12 : List Nat) ++ (s'.flatMap jsonEscapeChar ++ 34 :: rest) =
                  92 :: 102 :: (s'.flatMap jsonEscapeChar ++ 34 :: rest) from rfl]
                rw [parseStrBody_escape2 102 12 _ (by omega) rfl, ih]
                rfl
              · by_cases h13 : c = 13
                · subst h13
                  rw [show (jsonEscapeChar 13 : List Nat) ++ (s'.flatMap jsonEscapeChar ++ 34 :: rest) =
                    92 :: 114 :: (s'.flatMap jsonEscapeChar ++ 34 :: rest) from rfl]
                  rw [parseStrBody_escape2 114 13 _ (by omega) rfl, ih]
                  rfl
                · by_cases hctl : c < 32
                  · have hesc : jsonEscapeChar c = [92, 117, 48, 48,
                      hexLowerDigit (c / 16), hexLowerDigit (c % 16)] := by
                      unfold jsonEscapeChar
                      rw [if_neg h34, if_neg h92, if_neg h8, if_neg h9, if_neg h10,
                        if_neg h12, if_neg h13, if_pos hctl]
                    rw [hesc]
                    rw [show ([92, 117, 48, 48, hexLowerDigit (c / 16),
                      hexLowerDigit (c % 16)] : List Nat) ++
                        (s'.flatMap jsonEscapeChar ++ 34 :: rest) =
                      92 :: 117 :: 48 :: 48 :: hexLowerDigit (c / 16) ::
                        hexLowerDigit (c % 16) ::
                        (s'.flatMap jsonEscapeChar ++ 34 :: rest) from rfl]
                    rw [parseStrBody_uescape c _ hctl, ih]
                    rfl
                  · have hesc : jsonEscapeChar c = [c] := by
                      unfold jsonEscapeChar
                      rw [if_neg h34, if_neg h92, if_neg h8, if_neg h9, if_neg h10,
                        if_neg h12, if_neg h13, if_neg hctl]
                    rw [hesc]
                    rw [show ([c] : List Nat) ++ (s'.flatMap jsonEscapeChar ++ 34 :: rest) =
                      c :: (s'.flatMap jsonEscapeChar ++ 34 :: rest) from rfl]
                    rw [parseStrBody_raw c _ h34 h92 (by omega), ih]
                    rfl

/-- Every stringified value starts with a quote, bracket or brace. -/
theorem jsonStringify_head (j : Json) :
    ∃ c t, jsonStringify j = c :: t ∧ (c = 34 ∨ c = 91 ∨ c = 123) := by
  cases j with
  | str s => exact ⟨34, _, rfl, Or.inl rfl⟩
  | arr xs => exact ⟨91, _, rfl, Or.inr (Or.inl rfl)⟩
  | obj kvs => exact ⟨123, _, rfl, Or.inr (Or.inr rfl)⟩

/-- The serialization of a value is never empty. -/
theorem jsonStringify_len_pos (j : Json) : 1 ≤ (jsonStringify j).length := by
  obtain ⟨c, t, hj, _⟩ := jsonStringify_head j
  rw [hj]
  simp

/-- A string literal adds the two quotes around the escaped body. -/
theorem strLit_len (k : List Nat) : (strLit k).length = (escBody k).length + 2 := by
  simp [strLit]

/-- elemsStr of a nonempty list starts with the first serialized element. -/
theorem elemsStr_split (x : Json) (xs : List Json) :
    ∃ t, elemsStr (x :: xs) = jsonStringify x ++ t := by
  cases xs with
  | nil => exact ⟨[], by simp [elemsStr]⟩
  | cons y ys => exact ⟨44 :: elemsStr (y :: ys), rfl⟩

/-- membersStr of a nonempty list starts with the first key literal and
its colon. -/
theorem membersStr_split (k : List Nat) (v : Json) (kvs : List (List Nat × Json)) :
    ∃ t, membersStr ((k, v) :: kvs) = strLit k ++ 58 :: t := by
  cases kvs with
  | nil => exact ⟨jsonStringify v, rfl⟩
  | cons p ps =>
    refine ⟨jsonStringify v ++ 44 :: membersStr (p :: ps), ?_⟩
    obtain ⟨k2, v2⟩ := p
    simp [membersStr]

/-- A nonempty serialized element list starts with a quote, bracket or
brace, never with the closing bracket. -/
theorem elems_head_split (x : Json) (xs : List Json) (suffix : List Nat) :
    ∃ r r2, elemsStr (x :: xs) ++ suffix = r :: r2 ∧ (r = 34 ∨ r = 91 ∨ r = 123) := by
  obtain ⟨t, ht⟩ := elemsStr_split x xs
  obtain ⟨c, t2, hj, hc⟩ := jsonStringify_head x
  refine ⟨c, t2 ++ t ++ suffix, ?_, hc⟩
  rw [ht, hj]
  simp [List.append_assoc]

/-- A nonempty serialized member list starts with the quote of its first
key. -/
theorem members_head_split (k : List Nat) (v : Json) (kvs : List (List Nat × Json))
    (suffix : List Nat) :
    ∃ r2, membersStr ((k, v) :: kvs) ++ suffix = 34 :: r2 := by
  obtain ⟨t, ht⟩ := membersStr_split k v kvs
  refine ⟨(escBody k ++ [34]) ++ (58 :: t) ++ suffix, ?_⟩
  rw [ht]
  simp [strLit, List.append_assoc]

/-- Reduction of the value parser on a quote. -/
theorem parseVal_succ_quote (f : Nat) (X : List Nat) :
    parseVal (f + 1) (34 :: X) =
      match parseStrBody X with
      | some (s, r) => some (Json.str s, r)
      | none => none := rfl

/-- Reduction of the value parser on an opening bracket. -/
theorem parseVal_succ_bracket (f : Nat) (r : Nat) (r2 : List Nat) :
    parseVal (f + 1) (91 :: r :: r2) =
      if r = 93 then some (Json.arr [], r2)
      else
        match parseElems f (r :: r2) with
        | some (xs, r3) => some (Json.arr xs, r3)
        | none => none := rfl

/-- Reduction of the value parser on an opening brace. -/
theorem parseVal_succ_brace (f : Nat) (r : Nat) (r2 : List Nat) :
    parseVal (f + 1) (123 :: r :: r2) =
      if r = 125 then some (Json.obj [], r2)
      else
        match parseMembers f (r :: r2) with
        | some (kvs, r3) => some (Json.obj kvs, r3)
        | none => none := rfl

/-- Reduction of the element list parser. -/
theorem parseElems_succ (f : Nat) (input : List Nat) :
    parseElems (f + 1) input =
      match parseVal f input with
      | none => none
      | some (v, rest) =>
        match rest with
        | [] => none
        | r :: r2 =>
          if r = 44 then
            match parseElems f r2 with
            | some (vs, r3) => some (v :: vs, r3)
            | none => none
          else if r = 93 then some ([v], r2)
          else none := rfl

/-- Reduction of the member list parser on a quote. -/
theorem parseMembers_succ_quote (f : Nat) (X : List Nat) :
    parseMembers (f + 1) (34 :: X) =
      match parseStrBody X with
      | none => none
      | some (k, r1) =>
        match r1 with
        | [] => none
        | r :: r2 =>
          if r = 58 then
            match parseVal f r2 with
            | none => none
            | some (v, r3) =>
              match r3 with
              | [] => none
              | q :: r4 =>
                if q = 44 then
                  match parseMembers f r4 with
                  | some (kvs, r5) => some ((k, v) :: kvs, r5)
                  | none => none
                else if q = 125 then some ([(k, v)], r4)
                else none
          else none := rfl

/-- The fuel indexed parser inverts stringify: with enough fuel, parsing a
serialized value consumes exactly it, and likewise for nonempty element
and member lists up to their closing bracket or brace. -/
theorem parse_roundtrip (n : Nat) :
    (∀ j rest, (jsonStringify j).length ≤ n →
      parseVal n (jsonStringify j ++ rest) = some (j, rest)) ∧
    (∀ xs rest, xs ≠ [] → (elemsStr xs).length + 1 ≤ n →
      parseElems n (elemsStr xs ++ 93 :: rest) = some (xs, rest)) ∧
    (∀ kvs rest, kvs ≠ [] → (membersStr kvs).length + 1 ≤ n →
      parseMembers n (membersStr kvs ++ 125 :: rest) = some (kvs, rest)) := by
  induction n using Nat.strong_induction_on with
  | _ n ih =>
    refine ⟨?_, ?_, ?_⟩
    · intro j rest hn
      rcases n with _ | m
      · exfalso
        have := jsonStringify_len_pos j
        omega
      · have ihm := ih m (Nat.lt_succ_self m)
        cases j with
        | str s =>
          rw [show jsonStringify (Json.str s) = 34 :: (escBody s ++ [34]) from rfl,
            List.cons_append, List.append_assoc,
            show ([34] : List Nat) ++ rest = 34 :: rest from rfl,
            parseVal_succ_quote, parseStrBody_escBody s rest]
        | arr xs =>
          cases xs with
          | nil =>
            rw [show jsonStringify (Json.arr []) = [91, 93] from rfl,
              show ([91, 93] : List Nat) ++ rest = 91 :: 93 :: rest from rfl,
              parseVal_succ_bracket, if_pos rfl]
          | cons x xs' =>
            have hlen : (elemsStr (x :: xs')).length + 1 ≤ m := by
              have h2 := hn
              rw [show jsonStringify (Json.arr (x :: xs')) =
                91 :: (elemsStr (x :: xs') ++ [93]) from rfl] at h2
              simp at h2
              omega
            rw [show jsonStringify (Json.arr (x :: xs')) =
              91 :: (elemsStr (x :: xs') ++ [93]) from rfl,
              List.cons_append, List.append_assoc,
              show ([93] : List Nat) ++ rest = 93 :: rest from rfl]
            obtain ⟨r, r2, hsplit, hr⟩ := elems_head_split x xs' (93 :: rest)
            rw [hsplit, parseVal_succ_bracket,
              if_neg (show ¬ r = 93 from by rcases hr with h | h | h <;> omega),
              ← hsplit, ihm.2.1 (x :: xs') rest (by simp) hlen]
        | obj kvs =>
          cases kvs with
          | nil =>
            rw [show jsonStringify (Json.obj []) = [123, 125] from rfl,
              show ([123, 125] : List Nat) ++ rest = 123 :: 125 :: rest from rfl,
              parseVal_succ_brace, if_pos rfl]
          | cons kv kvs' =>
            obtain ⟨k, v⟩ := kv
            have hlen : (membersStr ((k, v) :: kvs')).length + 1 ≤ m := by
              have h2 := hn
              rw [show jsonStringify (Json.obj ((k, v) :: kvs')) =
                123 :: (membersStr ((k, v) :: kvs') ++ [125]) from rfl] at h2
              simp at h2
              omega
            rw [show jsonStringify (Json.obj ((k, v) :: kvs')) =
              123 :: (membersStr ((k, v) :: kvs') ++ [125]) from rfl,
              List.cons_append, List.append_assoc,
              show ([125] : List Nat) ++ rest = 125 :: rest from rfl]
            obtain ⟨r2, hsplit⟩ := members_head_split k v kvs' (125 :: rest)
            rw [hsplit, parseVal_succ_brace,
              if_neg (show ¬ (34 : Nat) = 125 from by omega),
              ← hsplit, ihm.2.2 ((k, v) :: kvs') rest (by simp) hlen]
    · intro xs rest hne hlen
      rcases n with _ | m
      · omega
      · have ihm := ih m (Nat.lt_succ_self m)
        rcases xs with _ | ⟨x, xs'⟩
        · exact absurd rfl hne
        rcases xs' with _ | ⟨y, ys⟩
        · have heq : elemsStr [x] = jsonStringify x := by simp [elemsStr]
          have hjl : (jsonStringify x).length ≤ m := by
            rw [← heq]
            omega
          rw [heq, parseElems_succ, ihm.1 x (93 :: rest) hjl]
          simp
        · have heq : elemsStr (x :: y :: ys) =
            jsonStringify x ++ 44 :: elemsStr (y :: ys) := rfl
          have hx := jsonStringify_len_pos x
          have hlens : (elemsStr (x :: y :: ys)).length =
              (jsonStringify x).length + 1 + (elemsStr (y :: ys)).length := by
            rw [heq]
            simp
            omega
          rw [heq, List.append_assoc, List.cons_append, parseElems_succ,
            ihm.1 x (44 :: (elemsStr (y :: ys) ++ 93 :: rest)) (by omega)]
          simp [ihm.2.1 (y :: ys) rest (by simp) (by omega)]
    · intro kvs rest hne hlen
      rcases n with _ | m
      · omega
      · have ihm := ih m (Nat.lt_succ_self m)
        rcases kvs with _ | ⟨⟨k, v⟩, kvs'⟩
        · exact absurd rfl hne
        have hsl := strLit_len k
        have hv := jsonStringify_len_pos v
        rcases kvs' with _ | ⟨⟨k2, v2⟩, kvs2⟩
        · have heq : membersStr [(k, v)] = strLit k ++ 58 :: jsonStringify v := rfl
          have hlens : (membersStr [(k, v)]).length =
              (strLit k).length + 1 + (jsonStringify v).length := by
            rw [heq]
            simp
            omega
          rw [heq,
            show (strLit k ++ 58 :: jsonStringify v) ++ 125 :: rest =
              34 :: (escBody k ++ 34 :: (58 :: (jsonStringify v ++ 125 :: rest))) from by
                simp [strLit, List.append_assoc],
            parseMembers_succ_quote,
            parseStrBody_escBody k (58 :: (jsonStringify v ++ 125 :: rest))]
          simp [ihm.1 v (125 :: rest) (by omega)]
        · have heq : membersStr ((k, v) :: (k2, v2) :: kvs2) =
              strLit k ++ 58 :: (jsonStringify v ++
                44 :: membersStr ((k2, v2) :: kvs2)) := by
            simp [membersStr]
          have hlens : (membersStr ((k, v) :: (k2, v2) :: kvs2)).length =
              (strLit k).length + 1 + (jsonStringify v).length + 1 +
                (membersStr ((k2, v2) :: kvs2)).length := by
            rw [heq]
            simp
            omega
          rw [heq,
            show (strLit k ++ 58 :: (jsonStringify v ++
                44 :: membersStr ((k2, v2) :: kvs2))) ++ 125 :: rest =
              34 :: (escBody k ++ 34 :: (58 :: (jsonStringify v ++
                44 :: (membersStr ((k2, v2) :: kvs2) ++ 125 :: rest)))) from by
                simp [strLit, List.append_assoc],
            parseMembers_succ_quote,
            parseStrBody_escBody k (58 :: (jsonStringify v ++
              44 :: (membersStr ((k2, v2) :: kvs2) ++ 125 :: rest)))]
          simp [ihm.1 v (44 :: (membersStr ((k2, v2) :: kvs2) ++ 125 :: rest)) (by omega),
            ihm.2.2 ((k2, v2) :: kvs2) rest (by simp) (by omega)]

/-- The JSON parse model inverts the JSON stringify model. -/
theorem jsonParse_stringify (j : Json) : jsonParse (jsonStringify j) = some j := by
  unfold jsonParse
  have h := (parse_roundtrip (jsonStringify j).length).1 j [] (le_refl _)
  rw [List.append_nil] at h
  rw [h]
  simp

/-- Every byte of the UTF-8 encoding of a bounded code point list is below
256, as btoa requires. -/
theorem utf8Encode_lt (s : List Nat) (h : ∀ c ∈ s, c < 1114112) :
    ∀ b ∈ utf8Encode s, b < 256 := by
  intro b hb
  simp only [utf8Encode, List.mem_flatMap] at hb
  obtain ⟨c, hc, hbc⟩ := hb
  exact utf8EncodeChar_lt c (h c hc) b hbc

/-- The lowercase hex digits stay in ASCII. -/
theorem hexLowerDigit_lt : ∀ d, d < 16 → hexLowerDigit d < 128 := by decide

/-- Characters of an escaped character stay bounded. -/
theorem jsonEscapeChar_bound (c x : Nat) (hc : c < 1114112)
    (hx : x ∈ jsonEscapeChar c) : x < 1114112 := by
  unfold jsonEscapeChar at hx
  split_ifs at hx with h1 h2 h3 h4 h5 h6 h7 h8
  all_goals simp only [List.mem_cons, List.not_mem_nil, or_false] at hx
  · rcases hx with hx | hx <;> omega
  · rcases hx with hx | hx <;> omega
  · rcases hx with hx | hx <;> omega
  · rcases hx with hx | hx <;> omega
  · rcases hx with hx | hx <;> omega
  · rcases hx with hx | hx <;> omega
  · rcases hx with hx | hx <;> omega
  · rcases hx with hx | hx | hx | hx | hx | hx
    · omega
    · omega
    · omega
    · omega
    · have := hexLowerDigit_lt (c / 16) (by omega)
      omega
    · have := hexLowerDigit_lt (c % 16) (by omega)
      omega
  · omega

/-- Characters of a string literal stay bounded when the string is. -/
theorem strLit_bound (s : List Nat) (h : ∀ c ∈ s, c < 1114112) :
    ∀ x ∈ strLit s, x < 1114112 := by
  intro x hx
  unfold strLit at hx
  rcases List.mem_cons.mp hx with hx | hx
  · omega
  rcases List.mem_append.mp hx with hx | hx
  · rcases List.mem_flatMap.mp (by simpa [escBody] using hx) with ⟨c, hc, hxc⟩
    exact jsonEscapeChar_bound c x (h c hc) hxc
  · simp at hx
    omega

/-- Serialized members of a cons stay bounded when the parts are. -/
theorem membersStr_bound_cons (k : List Nat) (v : Json) (kvs : List (List Nat × Json))
    (hk : ∀ c ∈ k, c < 1114112) (hv : ∀ x ∈ jsonStringify v, x < 1114112)
    (hkvs : ∀ x ∈ membersStr kvs, x < 1114112) :
    ∀ x ∈ membersStr ((k, v) :: kvs), x < 1114112 := by
  intro x hx
  cases kvs with
  | nil =>
    rw [show membersStr [(k, v)] = strLit k ++ 58 :: jsonStringify v from rfl] at hx
    simp only [List.mem_append, List.mem_cons] at hx
    rcases hx with hx | hx | hx
    · exact strLit_bound k hk x hx
    · omega
    · exact hv x hx
  | cons p ps =>
    obtain ⟨k2, v2⟩ := p
    rw [show membersStr ((k, v) :: (k2, v2) :: ps) =
      strLit k ++ 58 :: (jsonStringify v ++ 44 :: membersStr ((k2, v2) :: ps)) from by
        simp [membersStr]] at hx
    simp only [List.mem_append, List.mem_cons] at hx
    rcases hx with hx | hx | hx | hx | hx
    · exact strLit_bound k hk x hx
    · omega
    · exact hv x hx
    · omega
    · exact hkvs x hx

/-- Serialized elements of a cons stay bounded when the parts are. -/
theorem elemsStr_bound_cons (v : Json) (xs : List Json)
    (hv : ∀ x ∈ jsonStringify v, x < 1114112)
    (hxs : ∀ x ∈ elemsStr xs, x < 1114112) :
    ∀ x ∈ elemsStr (v :: xs), x < 1114112 := by
  intro x hx
  cases xs with
  | nil =>
    rw [show elemsStr [v] = jsonStringify v from by simp [elemsStr]] at hx
    exact hv x hx
  | cons y ys =>
    rw [show elemsStr (v :: y :: ys) = jsonStringify v ++ 44 :: elemsStr (y :: ys)
      from rfl] at hx
    simp only [List.mem_append, List.mem_cons] at hx
    rcases hx with hx | hx | hx
    · exact hv x hx
    · omega
    · exact hxs x hx

/-- A serialized string value stays bounded when the string is. -/
theorem stringify_str_bound (s : List Nat) (h : ∀ c ∈ s, c < 1114112) :
    ∀ x ∈ jsonStringify (Json.str s), x < 1114112 := by
  intro x hx
  rw [show jsonStringify (Json.str s) = strLit s from rfl] at hx
  exact strLit_bound s h x hx

/-- A serialized object stays bounded when its member list is. -/
theorem stringify_obj_bound (kvs : List (List Nat × Json))
    (h : ∀ x ∈ membersStr kvs, x < 1114112) :
    ∀ x ∈ jsonStringify (Json.obj kvs), x < 1114112 := by
  intro x hx
  rw [show jsonStringify (Json.obj kvs) = 123 :: (membersStr kvs ++ [125]) from rfl] at hx
  simp only [List.mem_cons, List.mem_append, List.not_mem_nil, or_false] at hx
  rcases hx with hx | hx | hx
  · omega
  · exact h x hx
  · omega

/-- A serialized array stays bounded when its element list is. -/
theorem stringify_arr_bound (xs : List Json)
    (h : ∀ x ∈ elemsStr xs, x < 1114112) :
    ∀ x ∈ jsonStringify (Json.arr xs), x < 1114112 := by
  intro x hx
  rw [show jsonStringify (Json.arr xs) = 91 :: (elemsStr xs ++ [93]) from rfl] at hx
  simp only [List.mem_cons, List.mem_append, List.not_mem_nil, or_false] at hx
  rcases hx with hx | hx | hx
  · omega
  · exact h x hx
  · omega

/-- Code point lists of Lean strings are bounded. -/
theorem jstr_bound (s : String) : ∀ c ∈ jstr s, c < 1114112 :=
  fun c hc => (jstr_valid s c hc).1

/-- One serialized attribute object of the metadata stays bounded. -/
theorem attrJson_bound (a : NftAttr) :
    ∀ x ∈ jsonStringify (Json.obj
      [(jstr "trait_type", Json.str (jstr a.trait_type)),
       (jstr "value", Json.str (jstr a.value))]), x < 1114112 := by
  apply stringify_obj_bound
  apply membersStr_bound_cons _ _ _ (jstr_bound _)
    (stringify_str_bound _ (jstr_bound _))
  apply membersStr_bound_cons _ _ _ (jstr_bound _)
    (stringify_str_bound _ (jstr_bound _))
  intro x hx
  simp [membersStr] at hx

/-- The whole serialized metadata of a built observation stays bounded. -/
theorem metaJson_bound (w : WeatherResp) (now : String) :
    ∀ x ∈ jsonStringify (metaJson (buildMetadata w now)), x < 1114112 := by
  rw [show metaJson (buildMetadata w now) = Json.obj
    [ (jstr "name", Json.str (jstr (buildMetadata w now).name))
    , (jstr "description", Json.str (jstr (buildMetadata w now).description))
    , (jstr "attributes", Json.arr ((buildMetadata w now).attributes.map fun a =>
        Json.obj [ (jstr "trait_type", Json.str (jstr a.trait_type))
                 , (jstr "value", Json.str (jstr a.value)) ])) ] from rfl]
  apply stringify_obj_bound
  apply membersStr_bound_cons _ _ _ (jstr_bound _) (stringify_str_bound _ (jstr_bound _))
  apply membersStr_bound_cons _ _ _ (jstr_bound _) (stringify_str_bound _ (jstr_bound _))
  apply membersStr_bound_cons _ _ _ (jstr_bound _)
  · rw [show (buildMetadata w now).attributes =
      [ ⟨"City", w.name⟩, ⟨"Temperature", w.mainTemp ++ "°C"⟩
      , ⟨"Condition", (w.weather.headD ⟨""⟩).description⟩, ⟨"Date", now⟩ ] from rfl]
    simp only [List.map_cons, List.map_nil]
    apply stringify_arr_bound
    refine elemsStr_bound_cons _ _ (attrJson_bound ⟨"City", w.name⟩) ?_
    refine elemsStr_bound_cons _ _
      (attrJson_bound ⟨"Temperature", w.mainTemp ++ "°C"⟩) ?_
    refine elemsStr_bound_cons _ _
      (attrJson_bound ⟨"Condition", (w.weather.headD ⟨""⟩).description⟩) ?_
    refine elemsStr_bound_cons _ _ (attrJson_bound ⟨"Date", now⟩) ?_
    intro x hx
    simp [elemsStr] at hx
  · intro x hx
    simp [membersStr] at hx

/-- C1: the source pipeline of getWeather, JSON stringify, percent encode,
reconstitute the raw UTF-8 bytes, base64 encode and prefix the scheme,
round trips: base64 decoding the payload, decoding the bytes and JSON
parsing the text reproduces the built metadata exactly, including
metadata with non ASCII condition text. -/
theorem C1_tokenURI_roundtrip (w : WeatherResp) (now : String) (_h : w.weather ≠ []) :
    decodeTokenURI (makeTokenURI (buildMetadata w now)) =
      some (metaJson (buildMetadata w now)) := by
  have hbound := metaJson_bound w now
  unfold decodeTokenURI makeTokenURI
  rw [List.drop_left, percentDecode_encode _ hbound,
    atobM_btoaM _ (utf8Encode_lt _ hbound)]
  simp only [Option.bind_eq_bind, Option.some_bind]
  rw [decodeUtf8_encode _ hbound]
  simp only [Option.some_bind]
  exact jsonParse_stringify _

/-- C1 witness: the Paris observation with an accented condition text. -/
theorem C1_witness :
    decodeTokenURI (makeTokenURI (buildMetadata wParis "now")) =
      some (metaJson (buildMetadata wParis "now")) :=
  C1_tokenURI_roundtrip wParis "now" (by decide)

end WeatherMint
